import Mathlib

/-!
Verification of the Sentinel-RAG repository's sandboxed-workspace /
patch-engine / diff-viewer subsystem against its natural-language
specification.  The frontend functions (`computeLineNumbers`,
`isDiffData`, `parseSseEvents`, `SplitDiffView`, `TEST_FILES`) are
embedded from `frontend/app/components/DiffViewer.tsx` and
`frontend/app/page.tsx`; the backend components (PathGuard,
FileStore, PatchEngine), whose sources are not part of the frontend
tree, are modelled from the specification where a claim needs them.
-/

namespace Sentinel

/-! ## Character-list string utilities (JavaScript string semantics) -/

/-- Characters of a string. -/
def chsOf (s : String) : List Char := s.data

/-- String from characters. -/
def strOf (cs : List Char) : String := ⟨cs⟩

/-- Whether `p` is a prefix of `l` (Boolean). -/
def isPrefixCh : List Char → List Char → Bool
  | [], _ => true
  | _ :: _, [] => false
  | p :: ps, c :: cs => p == c && isPrefixCh ps cs

/-- JavaScript `String.prototype.split` with a non-empty plain-string
separator: non-overlapping leftmost splitting; always returns at least
one (possibly empty) segment. -/
def jsSplitCh (sep : List Char) : List Char → List (List Char)
  | [] => [[]]
  | c :: cs =>
    if sep ≠ [] ∧ isPrefixCh sep (c :: cs) = true then
      [] :: jsSplitCh sep (List.drop (sep.length - 1) cs)
    else
      match jsSplitCh sep cs with
      | [] => [[c]]
      | g :: gs => (c :: g) :: gs
termination_by l => l.length
decreasing_by
  · simp only [List.length_cons]
    have := List.length_drop (sep.length - 1) cs
    omega
  · simp [Nat.lt_succ_self]

/-- Whether `sep` occurs as a contiguous sublist of `l`. -/
def containsCh (sep : List Char) : List Char → Bool
  | [] => isPrefixCh sep []
  | c :: cs => isPrefixCh sep (c :: cs) || containsCh sep cs

/-- Interleave `sep` between the groups (JavaScript `Array.prototype.join`). -/
def joinWithCh (sep : List Char) : List (List Char) → List Char
  | [] => []
  | [g] => g
  | g :: g' :: gs => g ++ sep ++ joinWithCh sep (g' :: gs)

/-- JavaScript `s.split(sep)` on Lean strings. -/
def jsSplit (s sep : String) : List String :=
  (jsSplitCh sep.data s.data).map strOf

/-- Join a list of strings with a separator string. -/
def jsJoin (sep : String) (xs : List String) : String :=
  strOf (joinWithCh sep.data (xs.map chsOf))

/-- JavaScript `s.startsWith(p)`. -/
def jsStartsWith (s p : String) : Bool := isPrefixCh p.data s.data

/-- Drop the first `n` characters of a string (`String.prototype.slice(n)`
for ASCII prefixes). -/
def jsDrop (s : String) (n : Nat) : String := strOf (s.data.drop n)

/-- Whitespace characters stripped by `String.prototype.trim`. -/
def isJsWs (c : Char) : Bool :=
  [' ', '\t', '\n', '\r', Char.ofNat 11, Char.ofNat 12].contains c

/-- JavaScript `s.trim()`. -/
def jsTrim (s : String) : String :=
  strOf (((s.data.dropWhile isJsWs).reverse.dropWhile isJsWs).reverse)

/-- JavaScript `s.split("\n")`, structurally: accumulate characters of
the current line (reversed) and emit a line at each newline; always
yields at least one line. -/
def splitNlAux : List Char → List Char → List String
  | [], acc => [strOf acc.reverse]
  | c :: cs, acc =>
    if c = '\n' then strOf acc.reverse :: splitNlAux cs []
    else splitNlAux cs (c :: acc)

/-- JavaScript `s.split("\n")` on a Lean string. -/
def jsSplitNl (s : String) : List String := splitNlAux s.data []

theorem splitNlAux_ne_nil (cs acc : List Char) : splitNlAux cs acc ≠ [] := by
  induction cs generalizing acc with
  | nil => simp [splitNlAux]
  | cons c cs ih =>
    rw [splitNlAux]
    split
    · simp
    · exact ih _

theorem splitNlAux_join (cs acc : List Char) :
    joinWithCh ['\n'] ((splitNlAux cs acc).map chsOf) = acc.reverse ++ cs := by
  induction cs generalizing acc with
  | nil => simp [splitNlAux, joinWithCh, chsOf, strOf]
  | cons c cs ih =>
    rw [splitNlAux]
    by_cases hc : c = '\n'
    · rw [if_pos hc]
      subst hc
      cases hs : splitNlAux cs [] with
      | nil => exact absurd hs (splitNlAux_ne_nil _ _)
      | cons g gs =>
        have h0 := ih []
        rw [hs] at h0
        simp only [List.map_cons, List.reverse_nil, List.nil_append] at h0
        simp only [List.map_cons, joinWithCh]
        rw [h0]
        simp [chsOf, strOf]
    · rw [if_neg hc]
      rw [ih (c :: acc)]
      simp

/-- Joining the split lines restores the original string. -/
theorem jsJoin_jsSplitNl (s : String) : jsJoin "\n" (jsSplitNl s) = s := by
  rw [jsJoin, jsSplitNl]
  have h := splitNlAux_join s.data []
  rw [show ("\n" : String).data = ['\n'] from rfl]
  rw [h]
  simp [strOf]

theorem jsSplitCh_ne_nil (sep : List Char) (l : List Char) :
    jsSplitCh sep l ≠ [] := by
  cases l with
  | nil => simp [jsSplitCh]
  | cons c cs =>
    rw [jsSplitCh]
    split
    · simp
    · cases hs : jsSplitCh sep cs <;> simp [hs]

theorem join_split_newline (cs : List Char) :
    joinWithCh ['\n'] (jsSplitCh ['\n'] cs) = cs := by
  induction cs with
  | nil => simp [jsSplitCh, joinWithCh]
  | cons c cs ih =>
    by_cases hc : c = '\n'
    · subst hc
      rw [jsSplitCh, if_pos (by simp [isPrefixCh])]
      simp only [List.length_cons, List.length_nil]
      rw [List.drop_zero]
      cases hs : jsSplitCh ['\n'] cs with
      | nil => exact absurd hs (jsSplitCh_ne_nil _ _)
      | cons g gs =>
        rw [hs] at ih
        simp [joinWithCh, ih]
    · rw [jsSplitCh, if_neg (by simp [isPrefixCh]; exact fun h => hc h.symm)]
      cases hs : jsSplitCh ['\n'] cs with
      | nil => exact absurd hs (jsSplitCh_ne_nil _ _)
      | cons g gs =>
        rw [hs] at ih
        cases gs with
        | nil => simpa [joinWithCh] using congrArg (c :: ·) ih
        | cons g' gs' => simpa [joinWithCh] using congrArg (c :: ·) ih

theorem containsCh_eq_false_split (sep : List Char) (l : List Char)
    (h : containsCh sep l = false) :
    jsSplitCh sep l = [l] := by
  induction l with
  | nil => simp [jsSplitCh]
  | cons c cs ih =>
    rw [containsCh, Bool.or_eq_false_iff] at h
    rw [jsSplitCh, if_neg (by simp [h.1])]
    rw [ih h.2]

/-! ## DiffViewer.tsx: DiffLine data model -/

/-- The `DiffLine.type` union from `DiffViewer.tsx`. -/
inductive DiffType where
  | add
  | remove
  | context
  | hunk
deriving DecidableEq, Repr

/-- A structured diff line: `{ type, content }`. -/
structure DiffLine where
  type : DiffType
  content : String
deriving DecidableEq, Repr

/-! ## DiffViewer.tsx: hunk-header regex
`/@@ -(\d+)(?:,\d+)? \+(\d+)(?:,\d+)? @@/` applied by
`String.prototype.match`: leftmost occurrence, capture groups are the
two leading digit runs. -/

/-- Greedy digit run with its decimal value; fails on zero digits. -/
def digitsVal (cs : List Char) : Option (Nat × List Char) :=
  let ds := cs.takeWhile Char.isDigit
  if ds = [] then none
  else some (ds.foldl (fun a c => a * 10 + (c.toNat - 48)) 0, cs.drop ds.length)

/-- The optional `(?:,\d+)?` group after a digit run: consume `,digits`
when present, otherwise match empty. -/
def afterCount (cs : List Char) : List Char :=
  match cs with
  | ',' :: rest =>
    match digitsVal rest with
    | some (_, rest') => rest'
    | none => ',' :: rest
  | _ => cs

/-- Try to match the hunk-header pattern starting exactly here. -/
def matchHunkAt (cs : List Char) : Option (Nat × Nat) :=
  match cs with
  | '@' :: '@' :: ' ' :: '-' :: r1 =>
    match digitsVal r1 with
    | none => none
    | some (os, r2) =>
      match afterCount r2 with
      | ' ' :: '+' :: r3 =>
        match digitsVal r3 with
        | none => none
        | some (ns, r4) =>
          match afterCount r4 with
          | ' ' :: '@' :: '@' :: _ => some (os, ns)
          | _ => none
      | _ => none
  | _ => none

/-- Leftmost match of the hunk-header regex anywhere in the content. -/
def findHunk : List Char → Option (Nat × Nat)
  | [] => none
  | c :: cs =>
    match matchHunkAt (c :: cs) with
    | some r => some r
    | none => findHunk cs

/-! ## DiffViewer.tsx: computeLineNumbers (lines 24–55) -/

/-- The pair `{ oldLine, newLine }` returned per diff line
(`null` is `none`). -/
structure LineNums where
  oldLine : Option Int
  newLine : Option Int
deriving DecidableEq, Repr

/-- The body of `computeLineNumbers`: a map over the lines carrying the
two mutable counters `oldLine`, `newLine` (JavaScript numbers, so
integers here: a hunk header `@@ -0 ... @@` sets the counter to `-1`). -/
def clnAux : Int → Int → List DiffLine → List LineNums
  | _, _, [] => []
  | o, n, l :: ls =>
    match l.type with
    | .hunk =>
      match findHunk l.content.data with
      | some (os, ns) =>
        ⟨none, none⟩ :: clnAux ((os : Int) - 1) ((ns : Int) - 1) ls
      | none => ⟨none, none⟩ :: clnAux o n ls
    | .remove => ⟨some (o + 1), none⟩ :: clnAux (o + 1) n ls
    | .add => ⟨none, some (n + 1)⟩ :: clnAux o (n + 1) ls
    | .context => ⟨some (o + 1), some (n + 1)⟩ :: clnAux (o + 1) (n + 1) ls

/-- The function `computeLineNumbers` from `DiffViewer.tsx`, both counters starting
at `0`. -/
def computeLineNumbers (lines : List DiffLine) : List LineNums :=
  clnAux 0 0 lines

/-- The counter state after `computeLineNumbers` has processed a list of
lines, starting from counters `(o, n)`. -/
def advance (o n : Int) : List DiffLine → Int × Int
  | [] => (o, n)
  | l :: ls =>
    match l.type with
    | .hunk =>
      match findHunk l.content.data with
      | some (os, ns) => advance ((os : Int) - 1) ((ns : Int) - 1) ls
      | none => advance o n ls
    | .remove => advance (o + 1) n ls
    | .add => advance o (n + 1) ls
    | .context => advance (o + 1) (n + 1) ls

/-- Line kinds counted by the old-file counter. -/
def countsOld (t : DiffType) : Bool := t == .remove || t == .context

/-- Line kinds counted by the new-file counter. -/
def countsNew (t : DiffType) : Bool := t == .add || t == .context

/-- Number of lines of a list counted by the old-file counter. -/
def oldCount (ls : List DiffLine) : Nat :=
  (ls.filter (fun l => countsOld l.type)).length

/-- Number of lines of a list counted by the new-file counter. -/
def newCount (ls : List DiffLine) : Nat :=
  (ls.filter (fun l => countsNew l.type)).length

theorem clnAux_append (o n : Int) (xs ys : List DiffLine) :
    clnAux o n (xs ++ ys)
      = clnAux o n xs ++ clnAux (advance o n xs).1 (advance o n xs).2 ys := by
  induction xs generalizing o n with
  | nil => simp [clnAux, advance]
  | cons x xs ih =>
    cases hx : x.type with
    | hunk =>
      cases hf : findHunk x.content.data with
      | none => simp [clnAux, advance, hx, hf, ih]
      | some r => cases r with
        | mk os ns => simp [clnAux, advance, hx, hf, ih]
    | remove => simp [clnAux, advance, hx, ih]
    | add => simp [clnAux, advance, hx, ih]
    | context => simp [clnAux, advance, hx, ih]

theorem advance_all_add (o n : Int) (mid : List DiffLine)
    (h : ∀ m ∈ mid, m.type = .add) : (advance o n mid).1 = o := by
  induction mid generalizing n with
  | nil => rfl
  | cons m ms ih =>
    have hm : m.type = .add := h m (by simp)
    rw [advance, hm]
    exact ih (n + 1) (fun x hx => h x (by simp [hx]))

theorem advance_all_remove (o n : Int) (mid : List DiffLine)
    (h : ∀ m ∈ mid, m.type = .remove) : (advance o n mid).2 = n := by
  induction mid generalizing o with
  | nil => rfl
  | cons m ms ih =>
    have hm : m.type = .remove := h m (by simp)
    rw [advance, hm]
    exact ih (o + 1) (fun x hx => h x (by simp [hx]))

theorem clnAux_length (o n : Int) (ls : List DiffLine) :
    (clnAux o n ls).length = ls.length := by
  induction ls generalizing o n with
  | nil => rfl
  | cons l ls ih =>
    cases hl : l.type with
    | hunk =>
      cases hf : findHunk l.content.data with
      | none => simp [clnAux, hl, hf, ih]
      | some r => cases r with
        | mk os ns => simp [clnAux, hl, hf, ih]
    | remove => simp [clnAux, hl, ih]
    | add => simp [clnAux, hl, ih]
    | context => simp [clnAux, hl, ih]

theorem clnAux_no_hunk (ls : List DiffLine)
    (hn : ∀ l ∈ ls, l.type ≠ .hunk) (o n : Int) (i : Nat) (li : DiffLine)
    (h : ls[i]? = some li) :
    (clnAux o n ls)[i]?
      = some ⟨if countsOld li.type then some (o + (oldCount (ls.take i) : Int) + 1) else none,
              if countsNew li.type then some (n + (newCount (ls.take i) : Int) + 1) else none⟩ := by
  induction ls generalizing i o n with
  | nil => simp at h
  | cons x xs ih =>
    have hx : x.type ≠ .hunk := hn x (by simp)
    cases i with
    | zero =>
      have hxl : x = li := by simpa using h
      subst hxl
      cases ht : x.type with
      | hunk => exact absurd ht hx
      | remove => simp [clnAux, ht, countsOld, countsNew, oldCount, newCount]
      | add => simp [clnAux, ht, countsOld, countsNew, oldCount, newCount]
      | context => simp [clnAux, ht, countsOld, countsNew, oldCount, newCount]
    | succ i =>
      simp only [List.getElem?_cons_succ] at h
      have hn' : ∀ l ∈ xs, l.type ≠ .hunk := fun l hl => hn l (by simp [hl])
      have htake : (x :: xs).take (i + 1) = x :: xs.take i := rfl
      cases ht : x.type with
      | hunk => exact absurd ht hx
      | remove =>
        rw [clnAux, ht]
        rw [List.getElem?_cons_succ, ih hn' (o + 1) n i h, htake]
        have h1 : oldCount (x :: xs.take i) = oldCount (xs.take i) + 1 := by
          simp [oldCount, countsOld, ht]
        have h2 : newCount (x :: xs.take i) = newCount (xs.take i) := by
          simp [newCount, countsNew, ht]
        rw [h1, h2]
        push_cast
        ring_nf
      | add =>
        rw [clnAux, ht]
        rw [List.getElem?_cons_succ, ih hn' o (n + 1) i h, htake]
        have h1 : oldCount (x :: xs.take i) = oldCount (xs.take i) := by
          simp [oldCount, countsOld, ht]
        have h2 : newCount (x :: xs.take i) = newCount (xs.take i) + 1 := by
          simp [newCount, countsNew, ht]
        rw [h1, h2]
        push_cast
        ring_nf
      | context =>
        rw [clnAux, ht]
        rw [List.getElem?_cons_succ, ih hn' (o + 1) (n + 1) i h, htake]
        have h1 : oldCount (x :: xs.take i) = oldCount (xs.take i) + 1 := by
          simp [oldCount, countsOld, ht]
        have h2 : newCount (x :: xs.take i) = newCount (xs.take i) + 1 := by
          simp [newCount, countsNew, ht]
        rw [h1, h2]
        push_cast
        ring_nf

theorem clnAux_hunk_entry (ms : List DiffLine) (o n : Int) (j : Nat)
    (m : DiffLine) (h : ms[j]? = some m) (hm : m.type = .hunk) :
    (clnAux o n ms)[j]? = some ⟨none, none⟩ := by
  induction ms generalizing j o n with
  | nil => simp at h
  | cons x xs ih =>
    cases j with
    | zero =>
      have hxm : x = m := by simpa using h
      subst hxm
      rw [clnAux, hm]
      cases hf : findHunk x.content.data with
      | none => simp [hf]
      | some r => cases r with
        | mk os ns => simp [hf]
    | succ j =>
      simp only [List.getElem?_cons_succ] at h
      cases ht : x.type with
      | hunk =>
        cases hf : findHunk x.content.data with
        | none =>
          rw [clnAux, ht, hf, List.getElem?_cons_succ]
          exact ih o n j h
        | some r =>
          cases r with
          | mk os ns =>
            rw [clnAux, ht, hf, List.getElem?_cons_succ]
            exact ih _ _ j h
      | remove =>
        rw [clnAux, ht, List.getElem?_cons_succ]
        exact ih _ _ j h
      | add =>
        rw [clnAux, ht, List.getElem?_cons_succ]
        exact ih _ _ j h
      | context =>
        rw [clnAux, ht, List.getElem?_cons_succ]
        exact ih _ _ j h

/-- C1: whenever a diff line of type `hunk` has content matching the header
form `@@ -oldStart[,oldCount] +newStart[,newCount] @@`, `computeLineNumbers`
assigns the first following remove-or-context line (the first line of the
hunk's body that advances the old-file counter; only add lines may precede
it inside the hunk) the old-file line number `oldStart`, and the first
following add-or-context line the new-file line number `newStart`. -/
theorem computeLineNumbers_hunk_header_recovers_positions
    (pre : List DiffLine) (h : DiffLine) (os ns : Nat)
    (hh : h.type = .hunk) (hp : findHunk h.content.data = some (os, ns)) :
    (∀ mid l rest, (∀ m ∈ mid, m.type = .add) →
        (l.type = .remove ∨ l.type = .context) →
        ((computeLineNumbers
            (pre ++ h :: (mid ++ l :: rest)))[pre.length + 1 + mid.length]?).map
            LineNums.oldLine = some (some (os : Int))) ∧
    (∀ mid l rest, (∀ m ∈ mid, m.type = .remove) →
        (l.type = .add ∨ l.type = .context) →
        ((computeLineNumbers
            (pre ++ h :: (mid ++ l :: rest)))[pre.length + 1 + mid.length]?).map
            LineNums.newLine = some (some (ns : Int))) := by
  constructor
  · intro mid l rest hmid hl
    rw [computeLineNumbers, clnAux_append]
    rw [List.getElem?_append_right (by rw [clnAux_length]; omega)]
    rw [clnAux_length]
    have hidx : pre.length + 1 + mid.length - pre.length = mid.length + 1 := by
      omega
    rw [hidx, clnAux, hh, hp]
    rw [List.getElem?_cons_succ, clnAux_append]
    rw [List.getElem?_append_right (le_of_eq (clnAux_length _ _ _))]
    rw [clnAux_length, Nat.sub_self]
    have ho : (advance ((os : Int) - 1) ((ns : Int) - 1) mid).1 = (os : Int) - 1 :=
      advance_all_add _ _ mid hmid
    rcases hl with hl | hl
    · rw [clnAux, hl]
      simp only [List.getElem?_cons_zero, Option.map_some]
      rw [ho]
      have : (os : Int) - 1 + 1 = (os : Int) := by ring
      rw [this]
      rfl
    · rw [clnAux, hl]
      simp only [List.getElem?_cons_zero, Option.map_some]
      rw [ho]
      have : (os : Int) - 1 + 1 = (os : Int) := by ring
      rw [this]
      rfl
  · intro mid l rest hmid hl
    rw [computeLineNumbers, clnAux_append]
    rw [List.getElem?_append_right (by rw [clnAux_length]; omega)]
    rw [clnAux_length]
    have hidx : pre.length + 1 + mid.length - pre.length = mid.length + 1 := by
      omega
    rw [hidx, clnAux, hh, hp]
    rw [List.getElem?_cons_succ, clnAux_append]
    rw [List.getElem?_append_right (le_of_eq (clnAux_length _ _ _))]
    rw [clnAux_length, Nat.sub_self]
    have hn2 : (advance ((os : Int) - 1) ((ns : Int) - 1) mid).2 = (ns : Int) - 1 :=
      advance_all_remove _ _ mid hmid
    rcases hl with hl | hl
    · rw [clnAux, hl]
      simp only [List.getElem?_cons_zero, Option.map_some]
      rw [hn2]
      have : (ns : Int) - 1 + 1 = (ns : Int) := by ring
      rw [this]
      rfl
    · rw [clnAux, hl]
      simp only [List.getElem?_cons_zero, Option.map_some]
      rw [hn2]
      have : (ns : Int) - 1 + 1 = (ns : Int) := by ring
      rw [this]
      rfl

theorem computeLineNumbers_hunk_header_recovers_positions_witness :
    ((computeLineNumbers [⟨.hunk, "@@ -3,2 +5,2 @@"⟩, ⟨.add, "x"⟩,
        ⟨.remove, "y"⟩])[2]?).map LineNums.oldLine = some (some 3) ∧
    ((computeLineNumbers [⟨.hunk, "@@ -3,2 +5,2 @@"⟩, ⟨.remove, "y"⟩,
        ⟨.add, "x"⟩])[2]?).map LineNums.newLine = some (some 5) := by
  have h := computeLineNumbers_hunk_header_recovers_positions []
      ⟨.hunk, "@@ -3,2 +5,2 @@"⟩ 3 5 rfl rfl
  exact ⟨h.1 [⟨.add, "x"⟩] ⟨.remove, "y"⟩ [] (by decide) (Or.inl rfl),
         h.2 [⟨.remove, "y"⟩] ⟨.add, "x"⟩ [] (by decide) (Or.inl rfl)⟩

/-- C4: on a list of diff lines containing no hunk line,
`computeLineNumbers` derives 1-based numbers: a context-or-remove line at
index `i` carries old-file number (number of earlier context/remove lines)
+ 1 — so the first one carries 1 — and a context-or-add line carries
new-file number (number of earlier context/add lines) + 1; add lines carry
a null old number, remove lines a null new number; and (in any list) a
hunk line carries null for both numbers. -/
theorem computeLineNumbers_no_hunk_numbering (ls : List DiffLine)
    (hn : ∀ l ∈ ls, l.type ≠ .hunk) (i : Nat) (li : DiffLine)
    (h : ls[i]? = some li) :
    (computeLineNumbers ls)[i]?
      = some ⟨if countsOld li.type then some ((oldCount (ls.take i) : Int) + 1) else none,
              if countsNew li.type then some ((newCount (ls.take i) : Int) + 1) else none⟩ ∧
    (∀ (ms : List DiffLine) (j : Nat) (m : DiffLine), ms[j]? = some m →
        m.type = .hunk → (computeLineNumbers ms)[j]? = some ⟨none, none⟩) := by
  constructor
  · simpa [computeLineNumbers] using clnAux_no_hunk ls hn 0 0 i li h
  · intro ms j m hj hm
    exact clnAux_hunk_entry ms 0 0 j m hj hm

theorem computeLineNumbers_no_hunk_numbering_witness :
    (computeLineNumbers [⟨.context, "a"⟩, ⟨.add, "b"⟩, ⟨.remove, "c"⟩])[2]?
        = some ⟨some 2, none⟩ ∧
    (computeLineNumbers [⟨.context, "a"⟩, ⟨.add, "b"⟩, ⟨.remove, "c"⟩])[0]?
        = some ⟨some 1, some 1⟩ ∧
    (computeLineNumbers [⟨.hunk, "@@ -3 +5 @@"⟩])[0]? = some ⟨none, none⟩ := by
  have h2 := computeLineNumbers_no_hunk_numbering
      [⟨.context, "a"⟩, ⟨.add, "b"⟩, ⟨.remove, "c"⟩]
      (by decide) 2 ⟨.remove, "c"⟩ rfl
  have h0 := computeLineNumbers_no_hunk_numbering
      [⟨.context, "a"⟩, ⟨.add, "b"⟩, ⟨.remove, "c"⟩]
      (by decide) 0 ⟨.context, "a"⟩ rfl
  refine ⟨h2.1.trans (by rfl), h0.1.trans (by rfl), ?_⟩
  exact h2.2 [⟨.hunk, "@@ -3 +5 @@"⟩] 0 ⟨.hunk, "@@ -3 +5 @@"⟩ rfl rfl

/-! ## A JSON value model and `JSON.parse` -/

/-- A parsed JSON value.  Numbers keep their lexeme (no claim inspects a
numeric value beyond zero-ness). -/
inductive Json where
  | null
  | bool (b : Bool)
  | num (lexeme : String)
  | str (s : String)
  | arr (elems : List Json)
  | obj (fields : List (String × Json))

/-- JSON insignificant whitespace. -/
def skipJWs (cs : List Char) : List Char :=
  cs.dropWhile (fun c => [' ', '\t', '\n', '\r'].contains c)

/-- Hexadecimal digit value. -/
def hexVal (c : Char) : Option Nat :=
  if c.isDigit then some (c.toNat - 48)
  else if 'a' ≤ c && c ≤ 'f' then some (c.toNat - 87)
  else if 'A' ≤ c && c ≤ 'F' then some (c.toNat - 55)
  else none

/-- Single-character JSON string escapes. -/
def escChar : Char → Option Char
  | '"' => some '"'
  | '\\' => some '\\'
  | '/' => some '/'
  | 'b' => some (Char.ofNat 8)
  | 'f' => some (Char.ofNat 12)
  | 'n' => some '\n'
  | 'r' => some '\r'
  | 't' => some '\t'
  | _ => none

/-- JSON string body (after the opening quote): content and remainder
after the closing quote.  Unescaped control characters are invalid. -/
def parseJStr : Nat → List Char → Option (List Char × List Char)
  | 0, _ => none
  | _ + 1, [] => none
  | _ + 1, '"' :: rest => some ([], rest)
  | k + 1, '\\' :: 'u' :: h1 :: h2 :: h3 :: h4 :: rest =>
    match hexVal h1, hexVal h2, hexVal h3, hexVal h4 with
    | some a, some b, some c, some d =>
      (parseJStr k rest).map
        (fun p => (Char.ofNat (((a * 16 + b) * 16 + c) * 16 + d) :: p.1, p.2))
    | _, _, _, _ => none
  | k + 1, '\\' :: e :: rest =>
    match escChar e with
    | some c => (parseJStr k rest).map (fun p => (c :: p.1, p.2))
    | none => none
  | k + 1, c :: rest =>
    if c.toNat < 32 then none
    else (parseJStr k rest).map (fun p => (c :: p.1, p.2))

/-- JSON number lexeme starting at `cs` (which begins with `-` or a
digit): `-?(0|[1-9][0-9]*)(\.[0-9]+)?([eE][+-]?[0-9]+)?`. -/
def parseNumLex (cs : List Char) : Option (List Char × List Char) :=
  let sign : List Char × List Char :=
    match cs with
    | '-' :: r => (['-'], r)
    | _ => ([], cs)
  let intPart : Option (List Char × List Char) :=
    match sign.2 with
    | '0' :: r => some (['0'], r)
    | c :: r =>
      if c.isDigit then
        some (c :: r.takeWhile Char.isDigit, r.dropWhile Char.isDigit)
      else none
    | [] => none
  match intPart with
  | none => none
  | some (ip, r1) =>
    let frac : List Char × List Char :=
      match r1 with
      | '.' :: r2 =>
        let ds := r2.takeWhile Char.isDigit
        if ds = [] then ([], r1) else ('.' :: ds, r2.dropWhile Char.isDigit)
      | _ => ([], r1)
    let r2 := frac.2
    let expPart : List Char × List Char :=
      match r2 with
      | e :: r3 =>
        if e == 'e' || e == 'E' then
          match r3 with
          | s :: r4 =>
            if s == '+' || s == '-' then
              let ds := r4.takeWhile Char.isDigit
              if ds = [] then ([], r2) else (e :: s :: ds, r4.dropWhile Char.isDigit)
            else
              let ds := r3.takeWhile Char.isDigit
              if ds = [] then ([], r2) else (e :: ds, r3.dropWhile Char.isDigit)
          | [] => ([], r2)
        else ([], r2)
      | [] => ([], r2)
    some (sign.1 ++ ip ++ frac.1 ++ expPart.1, expPart.2)

/-- Comma-separated JSON array elements (at least one) followed by `]`,
parsing each element with `f`. -/
def parseElemsWith (f : List Char → Option (Json × List Char)) :
    Nat → List Char → Option (List Json × List Char)
  | 0, _ => none
  | k + 1, cs =>
    match f cs with
    | none => none
    | some (v, r) =>
      match skipJWs r with
      | ',' :: r2 =>
        (parseElemsWith f k r2).map (fun p => (v :: p.1, p.2))
      | ']' :: r2 => some ([v], r2)
      | _ => none

/-- Comma-separated JSON object members (at least one) followed by `}`,
parsing each value with `f`. -/
def parseFieldsWith (f : List Char → Option (Json × List Char)) :
    Nat → List Char → Option (List (String × Json) × List Char)
  | 0, _ => none
  | k + 1, cs =>
    match skipJWs cs with
    | '"' :: r =>
      match parseJStr (r.length + 1) r with
      | none => none
      | some (key, r1) =>
        match skipJWs r1 with
        | ':' :: r2 =>
          match f r2 with
          | none => none
          | some (v, r3) =>
            match skipJWs r3 with
            | ',' :: r4 =>
              (parseFieldsWith f k r4).map (fun p => ((strOf key, v) :: p.1, p.2))
            | '}' :: r4 => some ([(strOf key, v)], r4)
            | _ => none
        | _ => none
    | _ => none

/-- Recursive-descent JSON value after skipping leading whitespace;
returns the value and the unconsumed remainder. -/
def parseVal : Nat → List Char → Option (Json × List Char)
  | 0, _ => none
  | fuel + 1, cs =>
    match skipJWs cs with
    | 'n' :: 'u' :: 'l' :: 'l' :: rest => some (.null, rest)
    | 't' :: 'r' :: 'u' :: 'e' :: rest => some (.bool true, rest)
    | 'f' :: 'a' :: 'l' :: 's' :: 'e' :: rest => some (.bool false, rest)
    | '"' :: rest =>
      (parseJStr (rest.length + 1) rest).map (fun p => (.str (strOf p.1), p.2))
    | '[' :: rest =>
      match skipJWs rest with
      | ']' :: r => some (.arr [], r)
      | _ => (parseElemsWith (parseVal fuel) (fuel + 1) rest).map
          (fun p => (.arr p.1, p.2))
    | '{' :: rest =>
      match skipJWs rest with
      | '}' :: r => some (.obj [], r)
      | _ => (parseFieldsWith (parseVal fuel) (fuel + 1) rest).map
          (fun p => (.obj p.1, p.2))
    | c :: rest =>
      if c == '-' || c.isDigit then
        (parseNumLex (c :: rest)).map (fun p => (.num (strOf p.1), p.2))
      else none
    | [] => none

/-- Model of `JSON.parse`: the whole string must be one JSON value plus trailing
whitespace; `none` models a thrown `SyntaxError`. -/
def jsonParse (s : String) : Option Json :=
  match parseVal (s.data.length + 2) s.data with
  | some (j, rest) => if skipJWs rest = [] then some j else none
  | none => none

/-- Object member lookup; a later duplicate key overwrites an earlier
one, as in JavaScript object construction. -/
def jsLookup (fields : List (String × Json)) (key : String) : Option Json :=
  (fields.reverse.find? (fun f => f.1 == key)).map (fun f => f.2)

/-- JavaScript property read `j[key]` on a value where the read cannot
throw: `none` is `undefined` (non-objects have no own properties). -/
def getField (j : Json) (key : String) : Option Json :=
  match j with
  | .obj fields => jsLookup fields key
  | _ => none

/-- JavaScript property read that distinguishes a thrown `TypeError`
(reading a property of `null`, outer `none`) from `undefined`
(inner `none`). -/
def jsProp (j : Json) (key : String) : Option (Option Json) :=
  match j with
  | .null => none
  | .obj fields => some (jsLookup fields key)
  | _ => some none

/-- Does a JSON number lexeme denote a nonzero number? -/
def jsNumNonzero (lex : String) : Bool :=
  (lex.data.takeWhile (fun c => !(c == 'e' || c == 'E'))).any
    (fun c => c.isDigit && c != '0')

/-- JavaScript truthiness of a parsed JSON value. -/
def jsTruthy : Json → Bool
  | .null => false
  | .bool b => b
  | .num lex => jsNumNonzero lex
  | .str s => !s.data.isEmpty
  | .arr _ => true
  | .obj _ => true

/-! ## DiffViewer.tsx: isDiffData (lines 301–317) -/

/-- Is this (possibly `undefined`) property value a string? -/
def isStrVal : Option Json → Bool
  | some (.str _) => true
  | _ => false

/-- Is this (possibly `undefined`) property value an array
(`Array.isArray`)? -/
def isArrVal : Option Json → Bool
  | some (.arr _) => true
  | _ => false

/-- The function `isDiffData` from `DiffViewer.tsx`: `JSON.parse` the output (a thrown
error is caught and yields `null`); accept iff the parsed value is truthy
with string `message`, `operation_type`, `file_path` and an array
`diff_lines`; the parsed value itself is returned. -/
def isDiffData (output : String) : Option Json :=
  match jsonParse output with
  | none => none
  | some parsed =>
    if jsTruthy parsed && isStrVal (getField parsed "message")
        && isStrVal (getField parsed "operation_type")
        && isStrVal (getField parsed "file_path")
        && isArrVal (getField parsed "diff_lines")
    then some parsed else none

/-- The field checks `isDiffData` performs, as stated by the claims: a
string `message`, a string `operation_type`, a string `file_path` and an
array `diff_lines`. -/
def diffDataHeaderShape (j : Json) : Bool :=
  isStrVal (getField j "message") && isStrVal (getField j "operation_type")
    && isStrVal (getField j "file_path") && isArrVal (getField j "diff_lines")

/-- Modelled from the spec: the complete `apply_patch` result shape (§6)
— string fields `message`, `operation_type`, `file_path`, `old_content`
and `new_content` all present, and `diff_lines` an array each of whose
elements has a `type` in add/remove/context/hunk and a string
`content`. -/
def completeApplyPatchShape (j : Json) : Bool :=
  isStrVal (getField j "message") && isStrVal (getField j "operation_type")
    && isStrVal (getField j "file_path")
    && isStrVal (getField j "old_content")
    && isStrVal (getField j "new_content")
    && (match getField j "diff_lines" with
        | some (.arr es) => es.all (fun e =>
            (match getField e "type" with
             | some (.str t) =>
               t == "add" || t == "remove" || t == "context" || t == "hunk"
             | _ => false)
            && isStrVal (getField e "content"))
        | _ => false)

theorem truthy_guard_eq_headerShape (j : Json) :
    (jsTruthy j && isStrVal (getField j "message")
        && isStrVal (getField j "operation_type")
        && isStrVal (getField j "file_path")
        && isArrVal (getField j "diff_lines"))
      = diffDataHeaderShape j := by
  cases j <;> simp [jsTruthy, diffDataHeaderShape, getField, isStrVal, isArrVal]

/-- C8: `isDiffData` is total — for every input string it returns either
the parsed object or `null` and never throws; a string that is not valid
JSON yields `null`, and otherwise the result is `some` exactly when the
parsed value has a string `message`, a string `operation_type`, a string
`file_path` and an array `diff_lines`. -/
theorem isDiffData_total (s : String) :
    (jsonParse s = none → isDiffData s = none) ∧
    (∀ j, jsonParse s = some j →
      isDiffData s = if diffDataHeaderShape j then some j else none) := by
  constructor
  · intro h
    simp [isDiffData, h]
  · intro j hj
    simp only [isDiffData, hj]
    rw [truthy_guard_eq_headerShape]

theorem isDiffData_total_witness :
    isDiffData "5" = none ∧ isDiffData "not json" = none := by
  constructor
  · have h := (isDiffData_total "5").2 (Json.num "5") rfl
    rw [h]
    rfl
  · exact (isDiffData_total "not json").1 rfl

/-- A tool-output string lacking `old_content`/`new_content` and with a
malformed `diff_lines` element, which `isDiffData` nevertheless accepts. -/
def acceptedSansContents : String :=
  "\x7b\"message\":\"m\",\"operation_type\":\"update_file\",\"file_path\":\"f\",\"diff_lines\":[\x7b\"type\":\"bogus\"\x7d]\x7d"

/-- C5 (counterexample): `isDiffData` accepts a string that is not a
serialization of the complete `apply_patch` result shape — `old_content`
and `new_content` are absent and the one `diff_lines` element has a
`type` outside add/remove/context/hunk and no string `content`. -/
theorem isDiffData_accepts_incomplete_shape :
    (isDiffData acceptedSansContents).isSome = true ∧
    (isDiffData acceptedSansContents).map completeApplyPatchShape
      = some false := by
  exact ⟨rfl, rfl⟩

/-- C5 (amended): every tool-output string that `isDiffData` accepts is a
JSON serialization of a value with a string `message`, a string
`operation_type`, a string `file_path` and an array `diff_lines`; the
`old_content` and `new_content` fields and the shape of the `diff_lines`
elements are not validated. -/
theorem isDiffData_accepted_header_shape (s : String) (j : Json)
    (h : isDiffData s = some j) :
    jsonParse s = some j ∧ diffDataHeaderShape j = true := by
  rw [isDiffData] at h
  cases hp : jsonParse s with
  | none => rw [hp] at h; exact absurd h (by simp)
  | some parsed =>
    rw [hp] at h
    simp only [] at h
    by_cases hg : (jsTruthy parsed && isStrVal (getField parsed "message")
        && isStrVal (getField parsed "operation_type")
        && isStrVal (getField parsed "file_path")
        && isArrVal (getField parsed "diff_lines")) = true
    · rw [if_pos hg] at h
      have hpj : parsed = j := by injection h
      subst hpj
      exact ⟨rfl, (truthy_guard_eq_headerShape parsed) ▸ hg⟩
    · rw [if_neg hg] at h
      exact absurd h (by simp)

theorem isDiffData_accepted_header_shape_witness :
    diffDataHeaderShape (Json.obj [("message", .str "m"),
      ("operation_type", .str "update_file"), ("file_path", .str "f"),
      ("diff_lines", .arr [.obj [("type", .str "bogus")]])]) = true := by
  exact (isDiffData_accepted_header_shape acceptedSansContents _ rfl).2

/-! ## page.tsx: parseSseEvents (lines 160–228) -/

/-- The `output` argument passed to `handlers.onToolOutput`: the string
`payload.output` when it is a string, otherwise the result of
`JSON.stringify(payload.output, null, 2)` (kept symbolically), which is
`undefined` when the property is absent. -/
inductive ToolOutputVal where
  | strVal (s : String)
  | stringified (j : Json)
  | undef

/-- One handler invocation performed by `parseSseEvents`. -/
inductive HandlerCall where
  | onText (text : String)
  | onToolCall (name : Json) (args : Json) (callId : Option Json)
  | onToolOutput (output : ToolOutputVal) (callId : Option Json)
  | onReasoning (summary : Json)
  | onDone (payload : Option Json)

/-- JavaScript `v || d` on a possibly-undefined property value. -/
def jsOrDefault (v : Option Json) (d : Json) : Json :=
  match v with
  | some x => if jsTruthy x then x else d
  | none => d

/-- JavaScript `v || undefined` on a possibly-undefined property value. -/
def jsOrUndef (v : Option Json) : Option Json :=
  match v with
  | some x => if jsTruthy x then some x else none
  | none => none

/-- The `tool_called` branch: parse the data, read `name`, `arguments`
and `call_id` (a `TypeError` on a null payload is caught and drops the
event), defaulting falsy name/arguments. -/
def sseToolCall (data : String) : List HandlerCall :=
  match jsonParse data with
  | none => []
  | some payload =>
    match jsProp payload "name", jsProp payload "arguments",
        jsProp payload "call_id" with
    | some nameV, some argsV, some cidV =>
      [.onToolCall (jsOrDefault nameV (.str "tool"))
        (jsOrDefault argsV (.str "")) (jsOrUndef cidV)]
    | _, _, _ => []

/-- The `tool_output` branch. -/
def sseToolOutput (data : String) : List HandlerCall :=
  match jsonParse data with
  | none => []
  | some payload =>
    match jsProp payload "output", jsProp payload "call_id" with
    | some outV, some cidV =>
      [.onToolOutput
        (match outV with
         | some (.str s) => .strVal s
         | some v => .stringified v
         | none => .undef)
        (jsOrUndef cidV)]
    | _, _ => []

/-- The `reasoning` branch: invoke the handler only on a truthy
`summary`. -/
def sseReasoning (data : String) : List HandlerCall :=
  match jsonParse data with
  | none => []
  | some payload =>
    match jsProp payload "summary" with
    | some (some v) => if jsTruthy v then [.onReasoning v] else []
    | some none => []
    | none => []

/-- The `done` branch: a parse failure still invokes `onDone`, with no
payload. -/
def sseDone (data : String) : List HandlerCall :=
  match jsonParse data with
  | some j => [.onDone (some j)]
  | none => [.onDone none]

/-- Dispatch one complete event by name. -/
def dispatchSse (eventName data : String) : List HandlerCall :=
  if eventName == "done" then sseDone data
  else if eventName == "tool_called" then sseToolCall data
  else if eventName == "tool_output" then sseToolOutput data
  else if eventName == "reasoning" then sseReasoning data
  else [.onText data]

/-- The per-segment line scan: the last `event:` line (prefix removed,
trimmed) names the event, and every `data:` line contributes its text
after the five-character prefix, in order. -/
def scanLines : List String → String → List String → String × List String
  | [], ev, ds => (ev, ds)
  | line :: rest, ev, ds =>
    if jsStartsWith line "event:" then
      scanLines rest (jsTrim (jsDrop line 6)) ds
    else if jsStartsWith line "data:" then
      scanLines rest ev (ds ++ [jsDrop line 5])
    else scanLines rest ev ds

/-- Process one complete SSE segment: no `data:` lines means no handler
invocation; otherwise the data lines are joined with a newline and
dispatched under the scanned event name (default `"message"`). -/
def processPart (part : String) : List HandlerCall :=
  let scanned := scanLines (jsSplitNl part) "message" []
  if scanned.2.isEmpty then []
  else dispatchSse scanned.1 (jsJoin "\n" scanned.2)

/-- The function `parseSseEvents` from `page.tsx`: split the buffer on the `"\n\n"`
event delimiter, pop the final segment as the new buffer, and process
each preceding (complete) segment in order. -/
def parseSseEvents (buffer : String) : List HandlerCall × String :=
  let parts := jsSplit buffer "\n\n"
  ((parts.dropLast).flatMap processPart, (parts.getLast?).getD "")

theorem startsWith_event_not_data (l : String)
    (h : jsStartsWith l "event:" = true) : jsStartsWith l "data:" = false := by
  rw [jsStartsWith] at h ⊢
  have he : ("event:" : String).data = ['e', 'v', 'e', 'n', 't', ':'] := rfl
  have hd : ("data:" : String).data = ['d', 'a', 't', 'a', ':'] := rfl
  rw [he] at h
  rw [hd]
  cases hl : l.data with
  | nil =>
    rw [hl] at h
    exact absurd h (by decide)
  | cons c cs =>
    rw [hl] at h
    rw [isPrefixCh, Bool.and_eq_true] at h
    have hc : c = 'e' := (eq_of_beq h.1).symm
    subst hc
    rw [isPrefixCh]
    simp

theorem scanLines_data (lines : List String) (ev : String)
    (acc : List String) :
    (scanLines lines ev acc).2
      = acc ++ lines.filterMap
          (fun l => if jsStartsWith l "data:" then some (jsDrop l 5)
                    else none) := by
  induction lines generalizing ev acc with
  | nil => simp [scanLines]
  | cons l ls ih =>
    by_cases he : jsStartsWith l "event:" = true
    · have hd : jsStartsWith l "data:" = false := startsWith_event_not_data l he
      rw [scanLines, if_pos he, ih]
      simp [List.filterMap_cons, hd]
    · rw [scanLines, if_neg (by simpa using he)]
      by_cases hdl : jsStartsWith l "data:" = true
      · rw [if_pos hdl, ih]
        simp [List.filterMap_cons, hdl]
      · have hd : jsStartsWith l "data:" = false := by simpa using hdl
        rw [if_neg (by simpa using hdl), ih]
        simp [List.filterMap_cons, hd]

/-- C9: `parseSseEvents` invokes handlers only for the complete events —
the `"\n\n"`-separated segments preceding the final one — and returns
the final segment unchanged as the new buffer (the whole buffer when no
delimiter occurs); a segment with no `data:` lines invokes no handler;
the data text of a segment is exactly each `data:` line's text after the
five-character prefix (leading space preserved), joined with newlines,
and a segment with data and a non-special event name invokes exactly
`onText` on that data. -/
theorem parseSseEvents_complete_events (buffer : String) :
    (parseSseEvents buffer).2 = ((jsSplit buffer "\n\n").getLast?).getD "" ∧
    (parseSseEvents buffer).1
      = ((jsSplit buffer "\n\n").dropLast).flatMap processPart ∧
    (containsCh ("\n\n" : String).data buffer.data = false →
      (parseSseEvents buffer).2 = buffer ∧ (parseSseEvents buffer).1 = []) ∧
    (∀ part : String,
      (∀ l ∈ jsSplitNl part, jsStartsWith l "data:" = false) →
      processPart part = []) ∧
    (∀ part : String,
      (scanLines (jsSplitNl part) "message" []).2
        = (jsSplitNl part).filterMap
            (fun l => if jsStartsWith l "data:" then some (jsDrop l 5)
                      else none)) ∧
    (∀ part : String,
      (scanLines (jsSplitNl part) "message" []).1
          ∉ (["done", "tool_called", "tool_output", "reasoning"] : List String) →
      (scanLines (jsSplitNl part) "message" []).2 ≠ [] →
      processPart part
        = [.onText (jsJoin "\n" (scanLines (jsSplitNl part) "message" []).2)]) := by
  refine ⟨rfl, rfl, ?_, ?_, ?_, ?_⟩
  · intro hocc
    have hsplit : jsSplitCh ("\n\n" : String).data buffer.data = [buffer.data] :=
      containsCh_eq_false_split _ _ hocc
    have hs : jsSplit buffer "\n\n" = [buffer] := by
      rw [jsSplit, hsplit]
      rfl
    rw [parseSseEvents, hs]
    exact ⟨rfl, rfl⟩
  · intro part hnone
    rw [processPart]
    have h2 : (scanLines (jsSplitNl part) "message" []).2 = [] := by
      rw [scanLines_data]
      simp only [List.nil_append]
      rw [List.filterMap_eq_nil_iff]
      intro l hl
      rw [hnone l hl]
      simp
    rw [h2]
    rfl
  · intro part
    exact scanLines_data _ _ _
  · intro part hev hne
    rw [processPart]
    rw [if_neg (by simpa using hne)]
    simp only [List.mem_cons, List.mem_singleton, not_or] at hev
    rw [dispatchSse]
    rw [if_neg (by simp [hev.1])]
    rw [if_neg (by simp [hev.2.1])]
    rw [if_neg (by simp [hev.2.2.1])]
    rw [if_neg (by simp [hev.2.2.2])]

theorem parseSseEvents_complete_events_witness :
    (parseSseEvents "data: hi\n\nrest").2 = "rest" ∧
    processPart "event: x\nfoo" = [] ∧
    processPart "data: hi" = [HandlerCall.onText " hi"] ∧
    (parseSseEvents "abc").2 = "abc" ∧ (parseSseEvents "abc").1 = [] := by
  have h1 := parseSseEvents_complete_events "data: hi\n\nrest"
  have h2 := parseSseEvents_complete_events "abc"
  refine ⟨h1.1.trans (by simp [jsSplit, jsSplitCh, isPrefixCh, strOf]), ?_, ?_,
    (h2.2.2.1 (by rfl)).1, (h2.2.2.1 (by rfl)).2⟩
  · refine h1.2.2.2.1 "event: x\nfoo" ?_
    intro l hl
    have hsp : jsSplitNl "event: x\nfoo" = ["event: x", "foo"] := rfl
    rw [hsp] at hl
    have hmem : l = "event: x" ∨ l = "foo" := by simpa using hl
    rcases hmem with rfl | rfl <;> rfl
  · have h5 := h1.2.2.2.2.2 "data: hi"
      (by
        rw [show (scanLines (jsSplitNl "data: hi") "message" []).1
            = "message" from rfl]
        decide)
      (by
        rw [show (scanLines (jsSplitNl "data: hi") "message" []).2
            = [" hi"] from rfl]
        simp)
    rw [h5]
    rfl

/-! ## page.tsx: TEST_FILES (lines 286-348) -/

/-- One built-in test fixture: `{ name, content }`. -/
structure TestFile where
  name : String
  content : String

/-- The `s3` fixture content. -/
def s3FixtureContent : String :=
  "resource \"aws_s3_bucket\" \"data\" \x7b\n  bucket = \"my-data-bucket\"\n\x7d\n\nresource \"aws_s3_bucket_acl\" \"data\" \x7b\n  bucket = aws_s3_bucket.data.id\n  acl    = \"public-read\"\n\x7d\n\nresource \"aws_s3_bucket_public_access_block\" \"data\" \x7b\n  bucket = aws_s3_bucket.data.id\n  block_public_acls       = false\n  block_public_policy     = false\n  ignore_public_acls      = false\n  restrict_public_buckets = false\n\x7d\n"

/-- The `sg` fixture content. -/
def sgFixtureContent : String :=
  "resource \"aws_security_group\" \"web\" \x7b\n  name        = \"web-sg\"\n  description = \"Allow web traffic\"\n  vpc_id      = var.vpc_id\n\n  ingress \x7b\n    description = \"SSH from anywhere\"\n    from_port   = 22\n    to_port     = 22\n    protocol    = \"tcp\"\n    cidr_blocks = [\"0.0.0.0/0\"]\n  \x7d\n\n  egress \x7b\n    from_port   = 0\n    to_port     = 0\n    protocol    = \"-1\"\n    cidr_blocks = [\"0.0.0.0/0\"]\n  \x7d\n\x7d\n"

/-- The `rds` fixture content. -/
def rdsFixtureContent : String :=
  "resource \"aws_db_instance\" \"main\" \x7b\n  identifier           = \"main-db\"\n  allocated_storage    = 20\n  engine               = \"mysql\"\n  engine_version       = \"8.0\"\n  instance_class       = \"db.t3.micro\"\n  db_name              = \"mydb\"\n  username             = \"admin\"\n  password             = \"password123\"\n  skip_final_snapshot  = true\n  publicly_accessible  = true\n  storage_encrypted    = false\n\x7d\n"

/-- The record `TEST_FILES` from `page.tsx`: the built-in fixtures. -/
def TEST_FILES : List (String × TestFile) :=
  [("s3", ⟨"s3_bucket.tf", s3FixtureContent⟩),
   ("sg", ⟨"security_group.tf", sgFixtureContent⟩),
   ("rds", ⟨"rds.tf", rdsFixtureContent⟩)]

/-- Record access `TEST_FILES[key]`. -/
def lookupTestFile (key : String) : Option TestFile :=
  (TEST_FILES.find? (fun e => e.1 == key)).map (fun e => e.2)

/-- Whitespace-separated tokens of a line (an HCL attribute assignment
`k = v` is whitespace-insensitive between tokens). -/
def wordsAux : List Char → List Char → List String
  | [], acc => if acc = [] then [] else [strOf acc.reverse]
  | c :: cs, acc =>
    if c = ' ' then
      (if acc = [] then wordsAux cs [] else strOf acc.reverse :: wordsAux cs [])
    else wordsAux cs (c :: acc)

/-- Tokens of one line. -/
def lineTokens (s : String) : List String := wordsAux s.data []

/-- Does some line of the content consist exactly of these tokens? -/
def hasTokenLine (content : String) (tks : List String) : Bool :=
  (jsSplitNl content).any (fun l => lineTokens l == tks)

/-- The lines strictly inside the `ingress { ... }` block. -/
def ingressBlockLines (content : String) : List String :=
  (((jsSplitNl content).dropWhile
      (fun l => !(lineTokens l == ["ingress", "\x7b"]))).drop 1).takeWhile
    (fun l => !(lineTokens l == ["\x7d"]))

/-- C7: the built-in fixtures realize the spec's concrete scan scenarios:
the `s3` fixture is named `s3_bucket.tf` and contains the attribute
assignment `acl = "public-read"`; the `sg` fixture is named
`security_group.tf` and its ingress rule has `from_port` 22, `to_port`
22 and `cidr_blocks ["0.0.0.0/0"]`; the `rds` fixture is named `rds.tf`
and contains the hardcoded plaintext database password
`password = "password123"`. -/
theorem test_fixtures_realize_scan_scenarios :
    ((lookupTestFile "s3").map TestFile.name = some "s3_bucket.tf" ∧
      (lookupTestFile "s3").map
          (fun f => hasTokenLine f.content ["acl", "=", "\"public-read\""])
        = some true) ∧
    ((lookupTestFile "sg").map TestFile.name = some "security_group.tf" ∧
      (lookupTestFile "sg").map (fun f =>
          (ingressBlockLines f.content).any
              (fun l => lineTokens l == ["from_port", "=", "22"]) &&
            (ingressBlockLines f.content).any
              (fun l => lineTokens l == ["to_port", "=", "22"]) &&
            (ingressBlockLines f.content).any
              (fun l => lineTokens l == ["cidr_blocks", "=", "[\"0.0.0.0/0\"]"]))
        = some true) ∧
    ((lookupTestFile "rds").map TestFile.name = some "rds.tf" ∧
      (lookupTestFile "rds").map
          (fun f => hasTokenLine f.content ["password", "=", "\"password123\""])
        = some true) := by
  exact ⟨⟨rfl, rfl⟩, ⟨rfl, rfl⟩, ⟨rfl, rfl⟩⟩

/-! ## DiffViewer.tsx: SplitDiffView (lines 197-298) -/

/-- One pane of the split diff view: the rendered rows (1-based line
number and text, from `oldLines.map((line, idx) => ...)`) and whether
the empty-state placeholder (`Empty file` / `File deleted`) is rendered
(guarded by `lines.length === 0`). -/
structure SideView where
  rows : List (Nat × String)
  placeholder : Bool

/-- Render one pane of `SplitDiffView` from a content string: split on
`"\n"`, number lines from 1. -/
def renderSide (content : String) : SideView :=
  let lines := jsSplitNl content
  ⟨lines.enum.map (fun p => (p.1 + 1, p.2)), lines.isEmpty⟩

/-- The two panes of `SplitDiffView`, from `old_content` and `new_content`. -/
def splitDiffView (oldContent newContent : String) : SideView × SideView :=
  (renderSide oldContent, renderSide newContent)

/-- C10: `split("\n")` yields at least one element for every string, so
the `Empty file` and `File deleted` placeholders of `SplitDiffView`
(guarded by `length === 0`) are unreachable; an empty `old_content` or
`new_content` renders as a single blank line numbered 1. -/
theorem splitDiffView_placeholders_unreachable (oldC newC : String) :
    1 ≤ (jsSplitNl oldC).length ∧
    (splitDiffView oldC newC).1.placeholder = false ∧
    (splitDiffView oldC newC).2.placeholder = false ∧
    (oldC = "" → (splitDiffView oldC newC).1.rows = [(1, "")]) ∧
    (newC = "" → (splitDiffView oldC newC).2.rows = [(1, "")]) := by
  have hne : ∀ s : String, jsSplitNl s ≠ [] :=
    fun s => splitNlAux_ne_nil s.data []
  refine ⟨?_, ?_, ?_, ?_, ?_⟩
  · have := hne oldC
    cases h : jsSplitNl oldC with
    | nil => exact absurd h this
    | cons a l => simp
  · simp [splitDiffView, renderSide, List.isEmpty_eq_false, hne oldC]
  · simp [splitDiffView, renderSide, List.isEmpty_eq_false, hne newC]
  · intro h
    subst h
    rfl
  · intro h
    subst h
    rfl

theorem splitDiffView_placeholders_unreachable_witness :
    (splitDiffView "" "").1.placeholder = false ∧
    (splitDiffView "" "").1.rows = [(1, "")] ∧
    (splitDiffView "" "").2.rows = [(1, "")] := by
  have h := splitDiffView_placeholders_unreachable "" ""
  exact ⟨h.2.1, h.2.2.2.1 rfl, h.2.2.2.2 rfl⟩

/-! ## PatchEngine diff derivation (modelled from the spec, SS4.4) -/

/-- Length of a longest common subsequence of two line lists. -/
def lcsLen : List String → List String → Nat
  | [], _ => 0
  | _, [] => 0
  | a :: as, b :: bs =>
    if a = b then lcsLen as bs + 1
    else max (lcsLen as (b :: bs)) (lcsLen (a :: as) bs)
termination_by a b => a.length + b.length

/-- Modelled from the spec: `PatchEngine`'s DiffLine derivation (SS4.4
step 5), whose source is not under the frontend tree — a line-oriented
LCS-based minimal edit script: equal lines become `context`, insertions
`add`, deletions `remove`.  The spec's configurable hunk-collapsing
window is modelled as unbounded, so no context run is collapsed; this
matches the spec's own round-trip property (SS8, property 3) for the
produced `diff_lines`. -/
def diffLines : List String → List String → List DiffLine
  | [], [] => []
  | [], n :: ns => ⟨.add, n⟩ :: diffLines [] ns
  | o :: os, [] => ⟨.remove, o⟩ :: diffLines os []
  | o :: os, n :: ns =>
    if o = n then ⟨.context, o⟩ :: diffLines os ns
    else if lcsLen (o :: os) ns ≤ lcsLen os (n :: ns) then
      ⟨.remove, o⟩ :: diffLines os (n :: ns)
    else ⟨.add, n⟩ :: diffLines (o :: os) ns
termination_by o n => o.length + n.length

/-- The claim's consumer-side replay of a diff against the old lines:
a `remove` line must match the current old line and drops it, a
`context` line must match and copies it, an `add` line emits its
content, and `hunk` marker lines are ignored; all old lines must be
consumed. -/
def replayDiff : List DiffLine → List String → Option (List String)
  | [], [] => some []
  | [], _ :: _ => none
  | d :: ds, old =>
    match d.type with
    | .hunk => replayDiff ds old
    | .add => (replayDiff ds old).map (fun r => d.content :: r)
    | .remove =>
      match old with
      | o :: os => if o = d.content then replayDiff ds os else none
      | [] => none
    | .context =>
      match old with
      | o :: os =>
        if o = d.content then (replayDiff ds os).map (fun r => o :: r)
        else none
      | [] => none

theorem replayDiff_diffLines (old new : List String) :
    replayDiff (diffLines old new) old = some new := by
  induction old, new using diffLines.induct with
  | case1 => simp [diffLines, replayDiff]
  | case2 n ns ih =>
    rw [diffLines]
    simp [replayDiff, ih]
  | case3 o os ih =>
    rw [diffLines]
    simp [replayDiff, ih]
  | case4 os n ns ih =>
    rw [diffLines, if_pos rfl]
    simp [replayDiff, ih]
  | case5 o os n ns hne hle ih =>
    rw [diffLines, if_neg hne, if_pos hle]
    simp [replayDiff, ih]
  | case6 o os n ns hne hle ih =>
    rw [diffLines, if_neg hne, if_neg hle]
    simp [replayDiff, ih]

/-- Modelled from the spec: the `diff_lines` of an `apply_patch` result
for an old/new content pair — the line-oriented comparison of the
newline-split contents. -/
def patchDiffLines (oldContent newContent : String) : List DiffLine :=
  diffLines (jsSplitNl oldContent) (jsSplitNl newContent)

/-- C3: for every pair of old and new file contents, replaying the
produced `diff_lines` against the old content — applying
remove/context/add in order and ignoring hunk markers — reconstructs
the new content exactly. -/
theorem patch_diff_round_trip (oldContent newContent : String) :
    (replayDiff (patchDiffLines oldContent newContent)
        (jsSplitNl oldContent)).map (jsJoin "\n")
      = some newContent := by
  rw [patchDiffLines, replayDiff_diffLines]
  simp [jsJoin_jsSplitNl]

/-! ## PathGuard (modelled from the spec, SS4.1) -/

/-- Split characters on a separator character, accumulator-style. -/
def splitChAux (sep : Char) : List Char → List Char → List String
  | [], acc => [strOf acc.reverse]
  | c :: cs, acc =>
    if c = sep then strOf acc.reverse :: splitChAux sep cs []
    else splitChAux sep cs (c :: acc)

/-- The `/`-separated segments of a path string. -/
def pathSegs (s : String) : List String := splitChAux '/' s.data []

/-- Errors raised by path resolution. -/
inductive PathErr where
  | pathEscape
  | resolveFailure
deriving DecidableEq

/-- Modelled from the spec: canonicalization (SS4.1), whose source is
not under the frontend tree — resolve `.` and `..` segments and
symlinks *before* any containment check.  `cur` is the absolute path
resolved so far (as segments); `tbl` maps absolute symlink paths to
absolute targets and a hit restarts resolution at the target; `fuel`
bounds symlink chains, `none` modelling a resolution failure such as a
symlink loop. -/
def canonAux (tbl : List (List String × List String)) :
    Nat → List String → List String → Option (List String)
  | 0, _, _ => none
  | _ + 1, cur, [] => some cur
  | fuel + 1, cur, seg :: rest =>
    if seg = "" ∨ seg = "." then canonAux tbl fuel cur rest
    else if seg = ".." then canonAux tbl fuel cur.dropLast rest
    else
      match (tbl.find? (fun e => e.1 == cur ++ [seg])).map (fun e => e.2) with
      | some target => canonAux tbl fuel [] (target ++ rest)
      | none => canonAux tbl fuel (cur ++ [seg]) rest

namespace PathGuard

/-- Modelled from the spec: `PathGuard.resolve(root, requestedPath)`
(SS4.1) — fails with `PathEscape` when the requested path is empty or
absolute (a relative path is required), or when the canonicalized
result is not a descendant of the sandbox root; otherwise returns the
canonical absolute path. -/
def resolve (tbl : List (List String × List String)) (fuel : Nat)
    (root : List String) (req : String) : Except PathErr (List String) :=
  if req = "" then .error .pathEscape
  else if jsStartsWith req "/" then .error .pathEscape
  else
    match canonAux tbl fuel root (pathSegs req) with
    | none => .error .resolveFailure
    | some c => if root.isPrefixOf c then .ok c else .error .pathEscape

end PathGuard

/-- Modelled from the spec: every FileStore operation routes its path
through `PathGuard.resolve` (SS4.3); the path a file operation touches
is the resolved path, and only on success. -/
def fileStoreTarget (tbl : List (List String × List String)) (fuel : Nat)
    (root : List String) (req : String) : Option (List String) :=
  match PathGuard.resolve tbl fuel root req with
  | .ok p => some p
  | .error _ => none

/-- C2: for every sandbox root and requested path whose canonicalized
resolution (`.`/`..` segments and symlinks resolved) is not a
descendant of the root — and for every empty or absolute request —
`PathGuard.resolve` fails with `PathEscape`; dually, every path it
returns, and hence the target of every file operation, is a descendant
of the root. -/
theorem pathGuard_no_escape (tbl : List (List String × List String))
    (fuel : Nat) (root : List String) (req : String) :
    (∀ c, canonAux tbl fuel root (pathSegs req) = some c →
      root.isPrefixOf c = false →
      PathGuard.resolve tbl fuel root req ≠ .ok c ∧
      (req ≠ "" → jsStartsWith req "/" = false →
        PathGuard.resolve tbl fuel root req = .error .pathEscape)) ∧
    (req = "" → PathGuard.resolve tbl fuel root req = .error .pathEscape) ∧
    (jsStartsWith req "/" = true →
      PathGuard.resolve tbl fuel root req = .error .pathEscape) ∧
    (∀ p, PathGuard.resolve tbl fuel root req = .ok p →
      root.isPrefixOf p = true) ∧
    (∀ p, fileStoreTarget tbl fuel root req = some p →
      root.isPrefixOf p = true) := by
  have hok : ∀ p, PathGuard.resolve tbl fuel root req = .ok p →
      root.isPrefixOf p = true := by
    intro p h
    by_cases h0 : req = ""
    · simp [PathGuard.resolve, h0] at h
    · by_cases h1 : jsStartsWith req "/" = true
      · simp [PathGuard.resolve, h0, h1] at h
      · cases hc : canonAux tbl fuel root (pathSegs req) with
        | none => simp [PathGuard.resolve, h0, h1, hc] at h
        | some c =>
          by_cases hpre : root.isPrefixOf c = true
          · have hcp : c = p := by
              simp [PathGuard.resolve, h0, h1, hc, hpre] at h
              exact h
            exact hcp ▸ hpre
          · simp [PathGuard.resolve, h0, h1, hc, hpre] at h
  refine ⟨?_, ?_, ?_, hok, ?_⟩
  · intro c hc hpre
    constructor
    · intro habs
      have := hok c habs
      rw [this] at hpre
      exact absurd hpre (by simp)
    · intro h0 h1
      simp [PathGuard.resolve, h0, h1, hc, hpre]
  · intro h0
    simp [PathGuard.resolve, h0]
  · intro h1
    by_cases h0 : req = ""
    · simp [PathGuard.resolve, h0]
    · simp [PathGuard.resolve, h0, h1]
  · intro p h
    cases hr : PathGuard.resolve tbl fuel root req with
    | ok q =>
      have hqp : q = p := by
        simp [fileStoreTarget, hr] at h
        exact h
      exact hqp ▸ hok q hr
    | error e => simp [fileStoreTarget, hr] at h

theorem pathGuard_no_escape_witness :
    PathGuard.resolve [(["sandbox", "s1", "link"], ["tmp"])] 10
        ["sandbox", "s1"] "../../etc/passwd" = .error .pathEscape ∧
    PathGuard.resolve [(["sandbox", "s1", "link"], ["tmp"])] 10
        ["sandbox", "s1"] "link/secret" = .error .pathEscape ∧
    List.isPrefixOf ["sandbox", "s1"] ["sandbox", "s1", "a", "b"] = true := by
  have h1 := (pathGuard_no_escape [(["sandbox", "s1", "link"], ["tmp"])] 10
      ["sandbox", "s1"] "../../etc/passwd").1 ["etc", "passwd"] rfl rfl
  have h2 := (pathGuard_no_escape [(["sandbox", "s1", "link"], ["tmp"])] 10
      ["sandbox", "s1"] "link/secret").1 ["tmp", "secret"] rfl rfl
  have h3 := (pathGuard_no_escape [(["sandbox", "s1", "link"], ["tmp"])] 10
      ["sandbox", "s1"] "a/b").2.2.2.1 ["sandbox", "s1", "a", "b"] rfl
  exact ⟨(h1.2 (by decide) rfl), (h2.2 (by decide) rfl), h3⟩

/-! ## FileStore atomic writes and PatchEngine failure semantics
(modelled from the spec, SS4.3-SS4.4) -/

/-- A flat filesystem: an association list from paths to contents. -/
structure FS where
  files : List (String × String)
deriving DecidableEq

/-- Read a file (`none` when absent). -/
def FS.read (fs : FS) (p : String) : Option String :=
  (fs.files.find? (fun e => e.1 == p)).map (fun e => e.2)

/-- Write or overwrite a file. -/
def FS.write (fs : FS) (p v : String) : FS :=
  ⟨(p, v) :: fs.files.filter (fun e => !(e.1 == p))⟩

/-- Delete a file. -/
def FS.del (fs : FS) (p : String) : FS :=
  ⟨fs.files.filter (fun e => !(e.1 == p))⟩

/-- Where an injected filesystem fault strikes inside the
temporary-file-then-rename write sequence. -/
inductive Fault where
  | atTmpCreate
  | atTmpFill
  | atRename
deriving DecidableEq

/-- Modelled from the spec: `FileStore.write` (SS4.3), whose source is
not under the frontend tree — write the content to a scoped temporary
file then atomically rename it over the target; on every failure exit
the temporary file is removed and the previous state left intact.
Returns a success flag and the resulting state. -/
def atomicWrite (fs : FS) (p tmp content : String) (fault : Option Fault) :
    Bool × FS :=
  match fault with
  | some .atTmpCreate => (false, fs)
  | some .atTmpFill => (false, (fs.write tmp content).del tmp)
  | some .atRename => (false, (fs.write tmp content).del tmp)
  | none => (true, ((fs.write tmp content).del tmp).write p content)

/-- Operation kinds of a `PatchOperation`. -/
inductive OpKind where
  | create_file
  | update_file
  | delete_file
deriving DecidableEq

/-- A structured edit operation (content absent for delete). -/
structure PatchOperation where
  kind : OpKind
  path : String
  content : Option String

/-- The PatchEngine states (SS4.4). -/
inductive PatchState where
  | Validated
  | Applied
  | DiffComputed
  | Rejected
deriving DecidableEq

/-- Modelled from the spec: the PatchEngine state machine over one
operation (SS4.4), whose source is not under the frontend tree —
validate the kind against file existence (violation: `Rejected`, not
applied), apply via FileStore (write for create/update, remove for
delete), then compute the diff (`DiffComputed`); a step-3 filesystem
fault terminates in `Rejected`. -/
def applyPatchOp (fs : FS) (op : PatchOperation) (tmp : String)
    (fault : Option Fault) : PatchState × FS :=
  match op.kind with
  | .create_file =>
    if (fs.read op.path).isSome then (.Rejected, fs)
    else
      match atomicWrite fs op.path tmp (op.content.getD "") fault with
      | (true, fs') => (.DiffComputed, fs')
      | (false, fs') => (.Rejected, fs')
  | .update_file =>
    if (fs.read op.path).isNone then (.Rejected, fs)
    else
      match atomicWrite fs op.path tmp (op.content.getD "") fault with
      | (true, fs') => (.DiffComputed, fs')
      | (false, fs') => (.Rejected, fs')
  | .delete_file =>
    if (fs.read op.path).isNone then (.Rejected, fs)
    else if fault.isSome then (.Rejected, fs)
    else (.DiffComputed, fs.del op.path)

theorem write_del_fresh (fs : FS) (tmp c : String)
    (h : fs.read tmp = none) : (fs.write tmp c).del tmp = fs := by
  cases fs with
  | mk files =>
    rw [FS.read, Option.map_eq_none'] at h
    rw [List.find?_eq_none] at h
    have hall : ∀ e ∈ files, (!(e.1 == tmp)) = true := by
      intro e he
      have := h e he
      simpa using this
    have hfilter : files.filter (fun e => !(e.1 == tmp)) = files :=
      List.filter_eq_self.mpr hall
    rw [FS.write, FS.del]
    simp only [hfilter, List.filter_cons]
    rw [show (!((tmp, c).1 == tmp)) = false from by simp]
    simp [hfilter]

/-- C6: if a filesystem fault strikes while the operation is being
applied (step 3), the operation terminates in the `Rejected` state and
the filesystem — in particular the target file — is unchanged from the
caller's perspective (the scoped temporary name being fresh, FileStore's
cleanup removes every trace of a partial write). -/
theorem patch_fault_rejected_unchanged (fs : FS) (op : PatchOperation)
    (tmp : String) (fault : Option Fault) (hf : fault ≠ none)
    (htmp : fs.read tmp = none) :
    (applyPatchOp fs op tmp fault).1 = .Rejected ∧
    (applyPatchOp fs op tmp fault).2 = fs := by
  cases hfa : fault with
  | none => exact absurd hfa hf
  | some f =>
    cases hk : op.kind with
    | create_file =>
      by_cases hex : (fs.read op.path).isSome = true
      · simp [applyPatchOp, hk, hex]
      · cases f <;>
          simp [applyPatchOp, hk, hex, atomicWrite,
            write_del_fresh fs tmp _ htmp]
    | update_file =>
      by_cases hex : (fs.read op.path).isNone = true
      · simp [applyPatchOp, hk, hex]
      · cases f <;>
          simp [applyPatchOp, hk, hex, atomicWrite,
            write_del_fresh fs tmp _ htmp]
    | delete_file =>
      by_cases hex : (fs.read op.path).isNone = true
      · simp [applyPatchOp, hk, hex]
      · simp [applyPatchOp, hk, hex]

theorem patch_fault_rejected_unchanged_witness :
    (applyPatchOp ⟨[("a.tf", "x")]⟩ ⟨.update_file, "a.tf", some "y"⟩
        "a.tf.tmp" (some .atRename)).1 = .Rejected ∧
    (applyPatchOp ⟨[("a.tf", "x")]⟩ ⟨.update_file, "a.tf", some "y"⟩
        "a.tf.tmp" (some .atRename)).2 = ⟨[("a.tf", "x")]⟩ := by
  exact patch_fault_rejected_unchanged ⟨[("a.tf", "x")]⟩
    ⟨.update_file, "a.tf", some "y"⟩ "a.tf.tmp" (some .atRename)
    (by simp) rfl

end Sentinel